import Mathlib

/-!
Shallow embedding of `src/blackjack-event-bot.js`.

The bot listens for `Deposit(user, amount)` and `WithdrawalProcessed(user, amount)`
contract events and maintains, in a MongoDB collection of `User` documents, one
record per (lower-cased) address holding a balance.

Modelling choices:
* A JS address string is a list of characters (`Addr`); `String.prototype.toLowerCase`
  on the ASCII hex addresses is `Char.toLower` mapped over the characters.
* A `User` document stores its balance as a decimal string; `ethers.BigNumber.from`
  parses it back and `toString` writes it, an exact round trip, so the balance is
  modelled directly as an arbitrary-precision integer (`Int`).  Event amounts are
  `uint256` values, modelled as `Nat`.
* The collection is a list of documents (`Store`).  `findOne` returns the first
  document matching the filter; `findOneAndUpdate`/`save` update that document.
  A plain `{ balance: v }` update object in Mongoose is a `$set`: it overwrites
  the field.
* Store I/O can fail transiently.  Each handler performs its store operations in
  order; `beh` lists which of them throws (`opFails beh i` is the fate of the
  handler's `i`-th store operation, defaulting to success).  The body runs in
  `Except JsError`; the handler's top-level `try/catch` turns any thrown error
  into a `console.error` and a normal return (`Outcome.errorLogged`).
* `console.log`/`console.warn`/`console.error` have no state effect and are not
  modelled beyond the `Outcome` naming the control path taken.
-/

/-- A JS string (an account address), as its list of characters. -/
abbrev Addr := List Char

/-- `String.prototype.toLowerCase()` as used on addresses (ASCII lowering). -/
def toLowerCase (a : Addr) : Addr := a.map Char.toLower

/-- One MongoDB `User` document: `{ address, balance }`. -/
structure UserRec where
  address : Addr
  balance : Int
  deriving DecidableEq, Repr

/-- The `User` collection. -/
abbrev Store := List UserRec

/-- `User.findOne({ address: k })`: first document whose `address` equals `k`. -/
def findOne : Store → Addr → Option UserRec
  | [], _ => none
  | u :: us, k => if u.address = k then some u else findOne us k

/-- Overwrite the `balance` field of the first document whose `address` is `k`
(the one `findOne` returns); used for both the `$set` of `findOneAndUpdate`
and `user.save()` after `user.balance = ...`. -/
def updateBalance : Store → Addr → Int → Store
  | [], _, _ => []
  | u :: us, k, b =>
      if u.address = k then { u with balance := b } :: us
      else u :: updateBalance us k b

/-- `User.findOneAndUpdate({ address: k }, { balance: b }, { upsert: true, new: true })`:
set `balance` to `b` on the matching document, inserting `{ address: k, balance: b }`
when none matches; returns the new store and the post-update document. -/
def findOneAndUpdate (st : Store) (k : Addr) (b : Int) : Store × UserRec :=
  match findOne st k with
  | some u => (updateBalance st k b, { u with balance := b })
  | none => (st ++ [⟨k, b⟩], ⟨k, b⟩)

/-- The only exception kind the model distinguishes: a transient store failure. -/
inductive JsError where
  | storeError
  deriving DecidableEq, Repr

/-- Which of a handler's store operations throw: operation `i` fails when the
`i`-th entry is `true`; missing entries succeed. -/
abbrev StoreBeh := List Bool

/-- Whether the handler's `i`-th store operation throws under behaviour `beh`. -/
def opFails (beh : StoreBeh) (i : Nat) : Bool := beh.getD i false

/-- The store behaviour in which every operation succeeds. -/
def noFail : StoreBeh := []

/-- The control path a handler invocation took, named after the spec's outcome
vocabulary: `applied b` is the happy path logging the new balance `b`,
the two `rejected…` outcomes are the early `return`s after a `console.warn`,
and `errorLogged` is the `catch` block's `console.error`. -/
inductive Outcome where
  | applied (newBalance : Int)
  | rejectedAccountNotFound
  | rejectedInsufficientBalance
  | errorLogged
  deriving DecidableEq, Repr

/-- What a handler invocation leaves behind: the store, the outcome, and whether
the event was re-queued for a later retry (the `catch` block only calls
`console.error`, so nothing ever re-queues). -/
structure HResult where
  store : Store
  outcome : Outcome
  requeued : Bool
  deriving DecidableEq, Repr

/-- The `try` block of `handleDeposit`: one store operation
(`findOneAndUpdate` upsert writing `balance := amount`). -/
def handleDepositE (beh : StoreBeh) (st : Store) (userAddress : Addr) (amount : Nat) :
    Except JsError (Store × Outcome) :=
  if opFails beh 0 then .error .storeError
  else
    let r := findOneAndUpdate st (toLowerCase userAddress) (amount : Int)
    .ok (r.1, .applied r.2.balance)

/-- `handleDeposit(userAddress, amount)`: the `try` body under the `catch` that
logs any error and returns normally. -/
def handleDeposit (beh : StoreBeh) (st : Store) (userAddress : Addr) (amount : Nat) :
    HResult :=
  match handleDepositE beh st userAddress amount with
  | .ok (st', o) => ⟨st', o, false⟩
  | .error _ => ⟨st, .errorLogged, false⟩

/-- The `try` block of `handleWithdrawalProcessed`: `findOne` (operation 0), the
not-found and insufficient-balance early returns, then `user.save()`
(operation 1) writing `balance := balance - amount`. -/
def handleWithdrawalE (beh : StoreBeh) (st : Store) (userAddress : Addr) (amount : Nat) :
    Except JsError (Store × Outcome) :=
  if opFails beh 0 then .error .storeError
  else
    match findOne st (toLowerCase userAddress) with
    | none => .ok (st, .rejectedAccountNotFound)
    | some user =>
        if user.balance < (amount : Int) then .ok (st, .rejectedInsufficientBalance)
        else if opFails beh 1 then .error .storeError
        else
          let newBalance := user.balance - (amount : Int)
          .ok (updateBalance st (toLowerCase userAddress) newBalance, .applied newBalance)

/-- `handleWithdrawalProcessed(userAddress, amount)`: the `try` body under the
`catch` that logs any error and returns normally. -/
def handleWithdrawalProcessed (beh : StoreBeh) (st : Store) (userAddress : Addr) (amount : Nat) :
    HResult :=
  match handleWithdrawalE beh st userAddress amount with
  | .ok (st', o) => ⟨st', o, false⟩
  | .error _ => ⟨st, .errorLogged, false⟩

/-- The two contract events the listeners of `setupEventListeners` dispatch on. -/
inductive Event where
  | deposit (user : Addr) (amount : Nat)
  | withdrawalProcessed (user : Addr) (amount : Nat)
  deriving DecidableEq, Repr

/-- Dispatch one event to its handler, as the listeners do. -/
def processEvent (beh : StoreBeh) (st : Store) : Event → HResult
  | .deposit a n => handleDeposit beh st a n
  | .withdrawalProcessed a n => handleWithdrawalProcessed beh st a n

/-- Process a sequence of delivered events (each with its own store behaviour). -/
def runEvents (st : Store) : List (StoreBeh × Event) → Store
  | [] => st
  | (beh, e) :: es => runEvents (processEvent beh st e).store es

/-! ### Helper lemmas about the store primitives -/

theorem toNat_ofNat_valid {m : Nat} (h : m.isValidChar) : (Char.ofNat m).toNat = m := by
  simp [Char.ofNat, dif_pos h, Char.ofNatAux, Char.toNat, UInt32.toNat, BitVec.toNat_ofNatLt]

theorem charToLower_toLower (c : Char) : c.toLower.toLower = c.toLower := by
  unfold Char.toLower
  by_cases h : c.toNat ≥ 65 ∧ c.toNat ≤ 90
  · rw [if_pos h]
    have hv : Nat.isValidChar (c.toNat + 32) := Or.inl (by omega)
    have ht : (Char.ofNat (c.toNat + 32)).toNat = c.toNat + 32 := toNat_ofNat_valid hv
    rw [if_neg (by rw [ht]; omega)]
  · rw [if_neg h, if_neg h]

theorem toLowerCase_toLowerCase (a : Addr) : toLowerCase (toLowerCase a) = toLowerCase a := by
  simp [toLowerCase, List.map_map, Function.comp, charToLower_toLower]

theorem findOne_some {st : Store} {k : Addr} {u : UserRec} (h : findOne st k = some u) :
    u ∈ st ∧ u.address = k := by
  induction st with
  | nil => simp [findOne] at h
  | cons v vs ih =>
      by_cases hv : v.address = k
      · simp [findOne, hv] at h
        subst h
        exact ⟨List.mem_cons_self _ _, hv⟩
      · simp [findOne, hv] at h
        exact ⟨List.mem_cons_of_mem _ (ih h).1, (ih h).2⟩

theorem updateBalance_of_findOne_none {st : Store} {k : Addr} (h : findOne st k = none)
    (b : Int) : updateBalance st k b = st := by
  induction st with
  | nil => rfl
  | cons v vs ih =>
      by_cases hv : v.address = k
      · simp [findOne, hv] at h
      · simp [findOne, hv] at h
        simp [updateBalance, hv, ih h]

theorem findOne_append_of_none {st : Store} {k : Addr} (h : findOne st k = none)
    (l : Store) : findOne (st ++ l) k = findOne l k := by
  induction st with
  | nil => rfl
  | cons v vs ih =>
      by_cases hv : v.address = k
      · simp [findOne, hv] at h
      · simp [findOne, hv] at h ⊢
        exact ih h

theorem updateBalance_append_of_none {st : Store} {k : Addr} (h : findOne st k = none)
    (l : Store) (b : Int) : updateBalance (st ++ l) k b = st ++ updateBalance l k b := by
  induction st with
  | nil => rfl
  | cons v vs ih =>
      by_cases hv : v.address = k
      · simp [findOne, hv] at h
      · simp [findOne, hv] at h
        simp [updateBalance, hv, ih h]

theorem findOne_updateBalance (st : Store) (k : Addr) (b : Int) :
    findOne (updateBalance st k b) k =
      (findOne st k).map (fun u => { u with balance := b }) := by
  induction st with
  | nil => rfl
  | cons v vs ih =>
      by_cases hv : v.address = k
      · simp [updateBalance, findOne, hv]
      · simp [updateBalance, findOne, hv, ih]

theorem updateBalance_updateBalance (st : Store) (k : Addr) (b b' : Int) :
    updateBalance (updateBalance st k b) k b' = updateBalance st k b' := by
  induction st with
  | nil => rfl
  | cons v vs ih =>
      by_cases hv : v.address = k
      · simp [updateBalance, hv]
      · simp [updateBalance, hv, ih]

theorem map_address_updateBalance (st : Store) (k : Addr) (b : Int) :
    (updateBalance st k b).map UserRec.address = st.map UserRec.address := by
  induction st with
  | nil => rfl
  | cons v vs ih =>
      by_cases hv : v.address = k
      · simp [updateBalance, hv]
      · simp [updateBalance, hv, ih]

theorem mem_updateBalance {st : Store} {k : Addr} {b : Int} {u' : UserRec}
    (h : u' ∈ updateBalance st k b) : u' ∈ st ∨ u'.balance = b := by
  induction st with
  | nil => simp [updateBalance] at h
  | cons v vs ih =>
      by_cases hv : v.address = k
      · simp [updateBalance, hv] at h
        rcases h with h | h
        · right; rw [h]
        · left; exact List.mem_cons_of_mem _ h
      · simp [updateBalance, hv] at h
        rcases h with h | h
        · left; rw [h]; exact List.mem_cons_self _ _
        · rcases ih h with h' | h'
          · left; exact List.mem_cons_of_mem _ h'
          · right; exact h'

theorem mem_updateBalance_address {st : Store} {k : Addr} {b : Int} {u' : UserRec}
    (h : u' ∈ updateBalance st k b) : ∃ u ∈ st, u'.address = u.address := by
  induction st with
  | nil => simp [updateBalance] at h
  | cons v vs ih =>
      by_cases hv : v.address = k
      · simp [updateBalance, hv] at h
        rcases h with h | h
        · exact ⟨v, List.mem_cons_self _ _, by simp [h, hv]⟩
        · exact ⟨u', List.mem_cons_of_mem _ h, rfl⟩
      · simp [updateBalance, hv] at h
        rcases h with h | h
        · exact ⟨v, List.mem_cons_self _ _, by simp [h]⟩
        · obtain ⟨u, hu, he⟩ := ih h
          exact ⟨u, List.mem_cons_of_mem _ hu, he⟩

/-! ### Claim theorems -/

/-- C3: on a Withdrawal for an existing record with balance `b` and amount `a > b`,
the handler performs no write — the store is returned unchanged — and the outcome
is the insufficient-balance rejection. -/
theorem withdrawal_insufficient_rejected (st : Store) (a : Addr) (n : Nat) (u : UserRec)
    (hfind : findOne st (toLowerCase a) = some u) (hlt : u.balance < (n : Int)) :
    handleWithdrawalProcessed noFail st a n = ⟨st, .rejectedInsufficientBalance, false⟩ := by
  simp [handleWithdrawalProcessed, handleWithdrawalE, opFails, noFail, hfind, hlt]

/-- Witness for C3 at a concrete input: balance 5, withdrawal of 7. -/
theorem withdrawal_insufficient_rejected_witness :
    handleWithdrawalProcessed noFail [⟨['a'], 5⟩] ['a'] 7 =
      ⟨[⟨['a'], 5⟩], .rejectedInsufficientBalance, false⟩ :=
  withdrawal_insufficient_rejected [⟨['a'], 5⟩] ['a'] 7 ⟨['a'], 5⟩ (by decide) (by decide)

/-- C5: a Withdrawal for an account with no record yields the account-not-found
rejection and leaves the store entirely unchanged (no record created). -/
theorem withdrawal_unknown_account_rejected (st : Store) (a : Addr) (n : Nat)
    (hfind : findOne st (toLowerCase a) = none) :
    handleWithdrawalProcessed noFail st a n = ⟨st, .rejectedAccountNotFound, false⟩ := by
  simp [handleWithdrawalProcessed, handleWithdrawalE, opFails, noFail, hfind]

/-- Witness for C5 at a concrete input: empty store, withdrawal of 1. -/
theorem withdrawal_unknown_account_rejected_witness :
    handleWithdrawalProcessed noFail [] ['b'] 1 = ⟨[], .rejectedAccountNotFound, false⟩ :=
  withdrawal_unknown_account_rejected [] ['b'] 1 rfl

/-- C6: on a Withdrawal for an existing record with balance `b` and amount `a ≤ b`,
the handler writes back exactly `b − a` (exact integer subtraction) to that record
and reports `applied (b − a)`. -/
theorem withdrawal_exact_subtraction (st : Store) (a : Addr) (n : Nat) (u : UserRec)
    (hfind : findOne st (toLowerCase a) = some u) (hle : (n : Int) ≤ u.balance) :
    handleWithdrawalProcessed noFail st a n =
      ⟨updateBalance st (toLowerCase a) (u.balance - n), .applied (u.balance - n), false⟩ ∧
    findOne (handleWithdrawalProcessed noFail st a n).store (toLowerCase a) =
      some ⟨u.address, u.balance - n⟩ := by
  have hnl : ¬ u.balance < (n : Int) := not_lt.mpr hle
  constructor
  · simp [handleWithdrawalProcessed, handleWithdrawalE, opFails, noFail, hfind, hnl]
  · simp [handleWithdrawalProcessed, handleWithdrawalE, opFails, noFail, hfind, hnl,
      findOne_updateBalance]

/-- Witness for C6 at the boundary case `a = b`: balance 4, withdrawal of 4,
leaving balance 0. -/
theorem withdrawal_exact_subtraction_witness :
    handleWithdrawalProcessed noFail [⟨['a'], 4⟩] ['a'] 4 =
      ⟨[⟨['a'], 0⟩], .applied 0, false⟩ :=
  ((withdrawal_exact_subtraction [⟨['a'], 4⟩] ['a'] 4 ⟨['a'], 4⟩ (by decide)
    (by decide)).1).trans (by decide)

/-- C7: a Deposit for an account with no record appends a record whose balance is
the deposit amount; no event processing ever removes an account's record; and any
processing whose outcome is not `applied` leaves the store unchanged. -/
theorem deposit_creates_record_and_persistence :
    (∀ st a n, findOne st (toLowerCase a) = none →
        handleDeposit noFail st a n =
          ⟨st ++ [⟨toLowerCase a, (n : Int)⟩], .applied (n : Int), false⟩) ∧
    (∀ beh st e a, a ∈ st.map UserRec.address →
        a ∈ ((processEvent beh st e).store).map UserRec.address) ∧
    (∀ beh st e, (∀ b, (processEvent beh st e).outcome ≠ .applied b) →
        (processEvent beh st e).store = st) := by
  refine ⟨?_, ?_, ?_⟩
  · intro st a n hfind
    simp [handleDeposit, handleDepositE, opFails, noFail, findOneAndUpdate, hfind]
  · intro beh st e a ha
    cases e with
    | deposit u n =>
        by_cases h0 : opFails beh 0
        · simpa [processEvent, handleDeposit, handleDepositE, h0] using ha
        · cases hf : findOne st (toLowerCase u) with
          | some v =>
              simpa [processEvent, handleDeposit, handleDepositE, h0, findOneAndUpdate, hf,
                map_address_updateBalance] using ha
          | none =>
              simp [processEvent, handleDeposit, handleDepositE, h0, findOneAndUpdate, hf]
              left
              simpa using ha
    | withdrawalProcessed u n =>
        by_cases h0 : opFails beh 0
        · simpa [processEvent, handleWithdrawalProcessed, handleWithdrawalE, h0] using ha
        · cases hf : findOne st (toLowerCase u) with
          | none =>
              simpa [processEvent, handleWithdrawalProcessed, handleWithdrawalE, h0, hf]
                using ha
          | some v =>
              by_cases hlt : v.balance < (n : Int)
              · simpa [processEvent, handleWithdrawalProcessed, handleWithdrawalE, h0, hf, hlt]
                  using ha
              · by_cases h1 : opFails beh 1
                · simpa [processEvent, handleWithdrawalProcessed, handleWithdrawalE, h0, hf,
                    hlt, h1] using ha
                · simpa [processEvent, handleWithdrawalProcessed, handleWithdrawalE, h0, hf,
                    hlt, h1, map_address_updateBalance] using ha
  · intro beh st e hne
    cases e with
    | deposit u n =>
        by_cases h0 : opFails beh 0
        · simp [processEvent, handleDeposit, handleDepositE, h0]
        · cases hf : findOne st (toLowerCase u) with
          | some v =>
              exact absurd
                (show (processEvent beh st (Event.deposit u n)).outcome = .applied (n : Int) by
                  simp [processEvent, handleDeposit, handleDepositE, h0, findOneAndUpdate, hf])
                (hne _)
          | none =>
              exact absurd
                (show (processEvent beh st (Event.deposit u n)).outcome = .applied (n : Int) by
                  simp [processEvent, handleDeposit, handleDepositE, h0, findOneAndUpdate, hf])
                (hne _)
    | withdrawalProcessed u n =>
        by_cases h0 : opFails beh 0
        · simp [processEvent, handleWithdrawalProcessed, handleWithdrawalE, h0]
        · cases hf : findOne st (toLowerCase u) with
          | none => simp [processEvent, handleWithdrawalProcessed, handleWithdrawalE, h0, hf]
          | some v =>
              by_cases hlt : v.balance < (n : Int)
              · simp [processEvent, handleWithdrawalProcessed, handleWithdrawalE, h0, hf, hlt]
              · by_cases h1 : opFails beh 1
                · simp [processEvent, handleWithdrawalProcessed, handleWithdrawalE, h0, hf,
                    hlt, h1]
                · exact absurd
                    (show (processEvent beh st (Event.withdrawalProcessed u n)).outcome =
                        .applied (v.balance - (n : Int)) by
                      simp [processEvent, handleWithdrawalProcessed, handleWithdrawalE, h0,
                        hf, hlt, h1])
                    (hne _)

/-- Witness for C7 at concrete inputs: a first deposit creates the record with
the deposited balance; an existing address survives a later event; a rejected
withdrawal leaves the store unchanged. -/
theorem deposit_creates_record_and_persistence_witness :
    handleDeposit noFail [] ['A'] 5 = ⟨[⟨['a'], 5⟩], .applied 5, false⟩ ∧
    ['a'] ∈ ((processEvent noFail [⟨['a'], 5⟩] (.deposit ['a'] 3)).store).map UserRec.address ∧
    (processEvent noFail [] (.withdrawalProcessed ['a'] 1)).store = [] :=
  ⟨(deposit_creates_record_and_persistence.1 [] ['A'] 5 rfl).trans (by decide),
   deposit_creates_record_and_persistence.2.1 noFail [⟨['a'], 5⟩] (.deposit ['a'] 3) ['a']
     (by decide),
   deposit_creates_record_and_persistence.2.2 noFail [] (.withdrawalProcessed ['a'] 1)
     (by intro b h
         simp [processEvent, handleWithdrawalProcessed, handleWithdrawalE, opFails, noFail,
           findOne] at h)⟩

theorem balances_nonneg_step {beh : StoreBeh} {st : Store} {e : Event}
    (h : ∀ u ∈ st, 0 ≤ u.balance) :
    ∀ u ∈ (processEvent beh st e).store, 0 ≤ u.balance := by
  cases e with
  | deposit a n =>
      by_cases h0 : opFails beh 0
      · simpa [processEvent, handleDeposit, handleDepositE, h0] using h
      · cases hf : findOne st (toLowerCase a) with
        | some v =>
            intro u hu
            simp [processEvent, handleDeposit, handleDepositE, h0, findOneAndUpdate, hf] at hu
            rcases mem_updateBalance hu with h' | h'
            · exact h u h'
            · rw [h']; exact Int.natCast_nonneg n
        | none =>
            intro u hu
            simp [processEvent, handleDeposit, handleDepositE, h0, findOneAndUpdate, hf] at hu
            rcases hu with h' | h'
            · exact h u h'
            · rw [h']; exact Int.natCast_nonneg n
  | withdrawalProcessed a n =>
      by_cases h0 : opFails beh 0
      · simpa [processEvent, handleWithdrawalProcessed, handleWithdrawalE, h0] using h
      · cases hf : findOne st (toLowerCase a) with
        | none =>
            simpa [processEvent, handleWithdrawalProcessed, handleWithdrawalE, h0, hf] using h
        | some v =>
            by_cases hlt : v.balance < (n : Int)
            · simpa [processEvent, handleWithdrawalProcessed, handleWithdrawalE, h0, hf, hlt]
                using h
            · by_cases h1 : opFails beh 1
              · simpa [processEvent, handleWithdrawalProcessed, handleWithdrawalE, h0, hf,
                  hlt, h1] using h
              · intro u hu
                simp [processEvent, handleWithdrawalProcessed, handleWithdrawalE, h0, hf,
                  hlt, h1] at hu
                rcases mem_updateBalance hu with h' | h'
                · exact h u h'
                · rw [h']; omega

theorem balances_nonneg_run (evs : List (StoreBeh × Event)) :
    ∀ st, (∀ u ∈ st, 0 ≤ u.balance) → ∀ u ∈ runEvents st evs, 0 ≤ u.balance := by
  induction evs with
  | nil => intro st h; simpa [runEvents] using h
  | cons p es ih =>
      intro st h
      obtain ⟨beh, e⟩ := p
      simpa [runEvents] using ih _ (balances_nonneg_step h)

/-- C4: starting from the empty store, after any sequence of delivered events —
whatever each event's store behaviour — every stored balance is nonnegative:
deposits write a `uint256` amount and withdrawals only subtract when the amount
does not exceed the balance. -/
theorem balance_never_negative (evs : List (StoreBeh × Event)) :
    ∀ u ∈ runEvents [] evs, 0 ≤ u.balance :=
  balances_nonneg_run evs [] (by simp)

/-- Witness for C4: the record left by a concrete deposit has balance `5 ≥ 0`. -/
theorem balance_never_negative_witness : 0 ≤ (UserRec.mk ['a'] 5).balance :=
  balance_never_negative [(noFail, Event.deposit ['a'] 5)] ⟨['a'], 5⟩ (by decide)

theorem lowercase_step {beh : StoreBeh} {st : Store} {e : Event}
    (h : ∀ u ∈ st, toLowerCase u.address = u.address) :
    ∀ u ∈ (processEvent beh st e).store, toLowerCase u.address = u.address := by
  cases e with
  | deposit a n =>
      by_cases h0 : opFails beh 0
      · simpa [processEvent, handleDeposit, handleDepositE, h0] using h
      · cases hf : findOne st (toLowerCase a) with
        | some v =>
            intro u hu
            simp [processEvent, handleDeposit, handleDepositE, h0, findOneAndUpdate, hf] at hu
            obtain ⟨w, hw, he⟩ := mem_updateBalance_address hu
            rw [he]; exact h w hw
        | none =>
            intro u hu
            simp [processEvent, handleDeposit, handleDepositE, h0, findOneAndUpdate, hf] at hu
            rcases hu with h' | h'
            · exact h u h'
            · rw [h']; exact toLowerCase_toLowerCase a
  | withdrawalProcessed a n =>
      by_cases h0 : opFails beh 0
      · simpa [processEvent, handleWithdrawalProcessed, handleWithdrawalE, h0] using h
      · cases hf : findOne st (toLowerCase a) with
        | none =>
            simpa [processEvent, handleWithdrawalProcessed, handleWithdrawalE, h0, hf] using h
        | some v =>
            by_cases hlt : v.balance < (n : Int)
            · simpa [processEvent, handleWithdrawalProcessed, handleWithdrawalE, h0, hf, hlt]
                using h
            · by_cases h1 : opFails beh 1
              · simpa [processEvent, handleWithdrawalProcessed, handleWithdrawalE, h0, hf,
                  hlt, h1] using h
              · intro u hu
                simp [processEvent, handleWithdrawalProcessed, handleWithdrawalE, h0, hf,
                  hlt, h1] at hu
                obtain ⟨w, hw, he⟩ := mem_updateBalance_address hu
                rw [he]; exact h w hw

theorem lowercase_run (evs : List (StoreBeh × Event)) :
    ∀ st, (∀ u ∈ st, toLowerCase u.address = u.address) →
      ∀ u ∈ runEvents st evs, toLowerCase u.address = u.address := by
  induction evs with
  | nil => intro st h; simpa [runEvents] using h
  | cons p es ih =>
      intro st h
      obtain ⟨beh, e⟩ := p
      simpa [runEvents] using ih _ (lowercase_step h)

/-- C9: both handlers key the store only by the lower-cased event address — two
events whose addresses agree after lower-casing read and mutate the same record —
and, starting from the empty store, every persisted record's address is a
lower-case (lower-casing-fixed) string. -/
theorem accounts_case_normalized :
    (∀ beh st a₁ a₂ n, toLowerCase a₁ = toLowerCase a₂ →
        handleDeposit beh st a₁ n = handleDeposit beh st a₂ n ∧
        handleWithdrawalProcessed beh st a₁ n = handleWithdrawalProcessed beh st a₂ n) ∧
    (∀ evs u, u ∈ runEvents [] evs → toLowerCase u.address = u.address) := by
  constructor
  · intro beh st a₁ a₂ n h
    constructor
    · unfold handleDeposit handleDepositE
      rw [h]
    · unfold handleWithdrawalProcessed handleWithdrawalE
      rw [h]
  · intro evs u hu
    exact lowercase_run evs [] (by simp) u hu

/-- Witness for C9: `"A"` and `"a"` act on the same record, and the record a
deposit under `"A"` leaves behind carries the lower-cased address `"a"`. -/
theorem accounts_case_normalized_witness :
    (handleDeposit noFail [] ['A'] 5 = handleDeposit noFail [] ['a'] 5 ∧
      handleWithdrawalProcessed noFail [] ['A'] 5 =
        handleWithdrawalProcessed noFail [] ['a'] 5) ∧
    toLowerCase (UserRec.mk ['a'] 7).address = (UserRec.mk ['a'] 7).address :=
  ⟨accounts_case_normalized.1 noFail [] ['A'] ['a'] 5 (by decide),
   accounts_case_normalized.2 [(noFail, Event.deposit ['A'] 7)] ⟨['a'], 7⟩ (by decide)⟩

/-- C10: whatever the store does — succeed, find nothing, or throw on any
operation — each handler returns normally: either its `try` body succeeded and
the handler returns that result, or the body threw and the `catch` swallowed the
error, returning the untouched store with the error only logged. -/
theorem handlers_always_return_normally (beh : StoreBeh) (st : Store) (a : Addr) (n : Nat) :
    ((∃ s o, handleDepositE beh st a n = Except.ok (s, o) ∧
        handleDeposit beh st a n = ⟨s, o, false⟩) ∨
      (∃ e, handleDepositE beh st a n = Except.error e ∧
        handleDeposit beh st a n = ⟨st, .errorLogged, false⟩)) ∧
    ((∃ s o, handleWithdrawalE beh st a n = Except.ok (s, o) ∧
        handleWithdrawalProcessed beh st a n = ⟨s, o, false⟩) ∨
      (∃ e, handleWithdrawalE beh st a n = Except.error e ∧
        handleWithdrawalProcessed beh st a n = ⟨st, .errorLogged, false⟩)) := by
  constructor
  · cases hE : handleDepositE beh st a n with
    | ok r =>
        obtain ⟨s, o⟩ := r
        exact Or.inl ⟨s, o, rfl, by simp [handleDeposit, hE]⟩
    | error e => exact Or.inr ⟨e, rfl, by simp [handleDeposit, hE]⟩
  · cases hE : handleWithdrawalE beh st a n with
    | ok r =>
        obtain ⟨s, o⟩ := r
        exact Or.inl ⟨s, o, rfl, by simp [handleWithdrawalProcessed, hE]⟩
    | error e => exact Or.inr ⟨e, rfl, by simp [handleWithdrawalProcessed, hE]⟩

/-- C1 evaluated at its failing input: a deposit of 5 followed by a deposit of 3
on the same account leaves the stored balance at 3 — `findOneAndUpdate`'s plain
`{ balance }` update is a `$set` that overwrites the balance with the new amount —
not at the additive `5 + 3` the claim states. -/
theorem deposit_overwrites_instead_of_crediting :
    runEvents [] [(noFail, .deposit ['a'] 5), (noFail, .deposit ['a'] 3)] = [⟨['a'], 3⟩] ∧
    findOne (runEvents [] [(noFail, .deposit ['a'] 5), (noFail, .deposit ['a'] 3)]) ['a'] ≠
      some ⟨['a'], 5 + 3⟩ := by decide

/-- Counterexample to C2: the code keeps no record of applied `eventId`s, so
redelivery is not idempotent. After Deposit(10) and Withdrawal(3) the balance is
7; delivering the very same Withdrawal(3) again debits it to 4, and delivering
the very same Deposit(10) again resets it to 10 — either redelivery changes the
balance instead of leaving it at 7. -/
theorem withdrawal_redelivery_double_debits :
    runEvents [] [(noFail, .deposit ['a'] 10), (noFail, .withdrawalProcessed ['a'] 3)] =
      [⟨['a'], 7⟩] ∧
    runEvents [] [(noFail, .deposit ['a'] 10), (noFail, .withdrawalProcessed ['a'] 3),
        (noFail, .withdrawalProcessed ['a'] 3)] =
      [⟨['a'], 4⟩] ∧
    runEvents [] [(noFail, .deposit ['a'] 10), (noFail, .withdrawalProcessed ['a'] 3),
        (noFail, .deposit ['a'] 10)] =
      [⟨['a'], 10⟩] ∧
    ([⟨['a'], 4⟩] : Store) ≠ [⟨['a'], 7⟩] ∧
    ([⟨['a'], 10⟩] : Store) ≠ [⟨['a'], 7⟩] := by decide

/-- C2 as amended: the only no-op redelivery is a Deposit redelivered
immediately, with no intervening applied event on the account — applying the
same Deposit twice in direct succession leaves the store unchanged, because the
deposit write sets the balance to the delivered amount rather than accumulating
it.  (With an intervening event, or for a Withdrawal, redelivery changes the
balance, as the counterexample shows.) -/
theorem deposit_redelivery_noop (st : Store) (a : Addr) (n : Nat) :
    (handleDeposit noFail ((handleDeposit noFail st a n).store) a n).store =
      (handleDeposit noFail st a n).store := by
  cases hf : findOne st (toLowerCase a) with
  | some u =>
      simp [handleDeposit, handleDepositE, opFails, noFail, findOneAndUpdate, hf,
        findOne_updateBalance, updateBalance_updateBalance]
  | none =>
      simp [handleDeposit, handleDepositE, opFails, noFail, findOneAndUpdate, hf,
        findOne_append_of_none hf, updateBalance_append_of_none hf, updateBalance, findOne]

/-- C8 as amended: when a handler's first store operation throws, the `catch`
block merely logs the error — the handler returns the store unchanged after that
single attempt, with no retry, no deferred outcome, and no re-queue. -/
theorem store_failure_logged_and_dropped (beh : StoreBeh) (st : Store) (a : Addr) (n : Nat)
    (h : opFails beh 0 = true) :
    handleDeposit beh st a n = ⟨st, .errorLogged, false⟩ ∧
    handleWithdrawalProcessed beh st a n = ⟨st, .errorLogged, false⟩ := by
  constructor
  · simp [handleDeposit, handleDepositE, h]
  · simp [handleWithdrawalProcessed, handleWithdrawalE, h]

/-- Witness for the amended C8 at a concrete input: the single store operation of
a deposit of 5 throws, the error is logged, the store stays empty. -/
theorem store_failure_logged_and_dropped_witness :
    handleDeposit [true] [] ['a'] 5 = ⟨[], .errorLogged, false⟩ ∧
    handleWithdrawalProcessed [true] [] ['a'] 5 = ⟨[], .errorLogged, false⟩ :=
  store_failure_logged_and_dropped [true] [] ['a'] 5 rfl

/-- Counterexample to C8: under a behaviour where only the first store operation
fails (so any retry would succeed), the deposit's effect is simply lost — no
record is created, the event is not re-queued, and the outcome is the logged
error, not a deferred-for-retry one. -/
theorem transient_store_failure_drops_event :
    handleDeposit [true] [] ['b'] 5 = ⟨[], .errorLogged, false⟩ ∧
    (handleDeposit [true] [] ['b'] 5).requeued = false ∧
    findOne (handleDeposit [true] [] ['b'] 5).store ['b'] = none ∧
    (handleDeposit noFail [] ['b'] 5).store = [⟨['b'], 5⟩] := by decide
